import Mathlib

/-!
Shallow embedding of the cellular-automaton engine from src/automata.rs
(struct Position, enum CellState, struct Cell, struct World and its
methods new, set_cell_state, neighbours_indexes, update, draw).
Rust usize arithmetic is modelled with Nat; a Rust indexing operation
that can panic is modelled with Option (none = panic). Byte buffers are
modelled as List Nat.
-/

structure Position where
  x : Nat
  y : Nat
deriving DecidableEq, Repr

def Position.from_index (index width : Nat) : Position :=
  { x := index % width, y := index / width }

def Position.to_index (p : Position) (width : Nat) : Nat :=
  p.y * width + p.x

/-- Rust: checked_sub(1).unwrap_or(width - 1). -/
def Position.left (p : Position) (width : Nat) : Position :=
  { x := if p.x = 0 then width - 1 else p.x - 1, y := p.y }

/-- Rust: checked_add(1).filter(v < width).unwrap_or(0). -/
def Position.right (p : Position) (width : Nat) : Position :=
  { x := if p.x + 1 < width then p.x + 1 else 0, y := p.y }

def Position.top (p : Position) (height : Nat) : Position :=
  { x := p.x, y := if p.y = 0 then height - 1 else p.y - 1 }

def Position.bottom (p : Position) (height : Nat) : Position :=
  { x := p.x, y := if p.y + 1 < height then p.y + 1 else 0 }

inductive CellState where
  | IMMUTABLE
  | ALIVE
  | DEAD
deriving DecidableEq, Repr

structure Cell where
  index : Nat
  position : Position
  state : CellState
deriving DecidableEq, Repr

instance : Inhabited Cell :=
  ⟨{ index := 0, position := { x := 0, y := 0 }, state := CellState.DEAD }⟩

structure World where
  width : Nat
  height : Nat
  paused : Bool
  cells : List Cell
deriving DecidableEq, Repr

def World.new (width height : Nat) : World :=
  { width := width
    height := height
    paused := true
    cells := (List.range (width * height)).map fun index =>
      { index := index
        position := Position.from_index index width
        state := CellState.DEAD } }

/-- Helper for set_cell_state: Rust get_mut(index) followed by a write of
the state field; out of range leaves the list unchanged. -/
def setStateAt : List Cell → Nat → CellState → List Cell
  | [], _, _ => []
  | c :: cs, 0, s => { c with state := s } :: cs
  | c :: cs, n + 1, s => c :: setStateAt cs n s

def World.set_cell_state (w : World) (index : Nat) (state : CellState) : World :=
  { w with cells := setStateAt w.cells index state }

/-- The eight Moore neighbour indices of a position, in the source order
NW, N, NE, W, E, SW, S, SE. -/
def Position.neighbours (p : Position) (width height : Nat) : List Nat :=
  [ ((p.top height).left width).to_index width,
    (p.top height).to_index width,
    ((p.top height).right width).to_index width,
    (p.left width).to_index width,
    (p.right width).to_index width,
    ((p.bottom height).left width).to_index width,
    (p.bottom height).to_index width,
    ((p.bottom height).right width).to_index width ]

/-- Rust neighbours_indexes reads self.cells[i] (a panicking index,
hence Option) and derives the eight indices from its stored position. -/
def World.neighbours_indexes (w : World) (i : Nat) : Option (List Nat) :=
  (w.cells.get? i).map fun cell => cell.position.neighbours w.width w.height

/-- Rust: neighbours.iter().map(self.cells[index]).filter(ALIVE).count().
Each lookup may panic, hence Option. -/
def countAlive (cells : List Cell) : List Nat → Option Nat
  | [] => some 0
  | i :: rest =>
    match cells.get? i with
    | none => none
    | some c =>
      match countAlive cells rest with
      | none => none
      | some n => some (n + if c.state = CellState.ALIVE then 1 else 0)

/-- The per-cell body of the update closure: reads only from the
pre-update world w (the frozen snapshot). -/
def stepCell (w : World) (cell : Cell) : Option Cell :=
  match cell.state with
  | CellState.IMMUTABLE => some cell
  | CellState.ALIVE | CellState.DEAD =>
    match w.neighbours_indexes cell.index with
    | none => none
    | some ns =>
      match countAlive w.cells ns with
      | none => none
      | some alive_neighbours =>
        some { index := cell.index
               position := cell.position
               state :=
                 if alive_neighbours = 2 then cell.state
                 else if alive_neighbours = 3 then CellState.ALIVE
                 else CellState.DEAD }

/-- Option-valued map over the cell list (the par_iter().map().collect()
of the source; parallel evaluation of a pure closure over a frozen
snapshot is order independent, so a sequential map is an exact model). -/
def mapCells (f : Cell → Option Cell) : List Cell → Option (List Cell)
  | [] => some []
  | c :: cs =>
    match f c with
    | none => none
    | some c' =>
      match mapCells f cs with
      | none => none
      | some cs' => some (c' :: cs')

def World.update (w : World) : Option World :=
  if w.paused then some w
  else
    match mapCells (stepCell w) w.cells with
    | none => none
    | some new_state => some { w with cells := new_state }

def World.updateN : World → Nat → Option World
  | w, 0 => some w
  | w, n + 1 =>
    match w.update with
    | none => none
    | some w' => World.updateN w' n

/-- The fixed RGBA colour written by draw for each state. -/
def colorOf : CellState → List Nat
  | CellState.IMMUTABLE => [0xFF, 0x00, 0x4D, 0xFF]
  | CellState.ALIVE => [0x1E, 0x1E, 0x1E, 0xFF]
  | CellState.DEAD => [0xF8, 0xF8, 0xF8, 0xF8]

/-- Rust draw loops over frame.chunks_exact_mut(4).enumerate(): each
complete 4-byte chunk i is overwritten with the colour of cells[i]
(a panicking index, hence Option); the incomplete tail chunk is left
untouched. -/
def drawLoop (cells : List Cell) : Nat → List Nat → Option (List Nat)
  | i, _a :: _b :: _c :: _d :: rest =>
    (match cells.get? i with
     | none => none
     | some cell =>
       match drawLoop cells (i + 1) rest with
       | none => none
       | some rest' => some (colorOf cell.state ++ rest'))
  | _, short => some short

def World.draw (w : World) (frame : List Nat) : Option (List Nat) :=
  drawLoop w.cells 0 frame

/-- The byte sequence produced by rendering a list of cells in order. -/
def renderCells : List Cell → List Nat
  | [] => []
  | c :: cs => colorOf c.state ++ renderCells cs

/-- The data-model invariant of the spec (section 3): the cell list has
width*height entries and cells[i] stores index i and the row-major
position of i. World.new establishes it; update and set_cell_state
preserve it. -/
def World.WellFormed (w : World) : Prop :=
  w.cells.length = w.width * w.height ∧
  ∀ i, i < w.cells.length →
    (w.cells.getD i default).index = i ∧
    (w.cells.getD i default).position = Position.from_index i w.width

instance (w : World) : Decidable w.WellFormed := by
  unfold World.WellFormed
  exact inferInstance

/-- Specification-level count of alive Moore neighbours of cell i, read
from the cell array of w (the pre-update snapshot). -/
def World.aliveNeighbours (w : World) (i : Nat) : Nat :=
  ((Position.from_index i w.width).neighbours w.width w.height).countP
    fun j => decide ((w.cells.getD j default).state = CellState.ALIVE)

/-- Specification-level transition of cell i: Immutable is absorbing,
otherwise the Conway rule on the alive-neighbour count. -/
def World.nextState (w : World) (i : Nat) : CellState :=
  match (w.cells.getD i default).state with
  | CellState.IMMUTABLE => CellState.IMMUTABLE
  | s =>
    if w.aliveNeighbours i = 2 then s
    else if w.aliveNeighbours i = 3 then CellState.ALIVE
    else CellState.DEAD

/-! Helper lemmas about setStateAt. -/

theorem setStateAt_length (s : CellState) :
    ∀ (l : List Cell) (i : Nat), (setStateAt l i s).length = l.length := by
  intro l
  induction l with
  | nil => intro i; rfl
  | cons c cs ih =>
    intro i
    cases i with
    | zero => simp [setStateAt]
    | succ n => simp [setStateAt, ih]

theorem setStateAt_get?_ne (s : CellState) :
    ∀ (l : List Cell) (i j : Nat), j ≠ i → (setStateAt l i s).get? j = l.get? j := by
  intro l
  induction l with
  | nil => intro i j _; rfl
  | cons c cs ih =>
    intro i j hne
    cases i with
    | zero =>
      cases j with
      | zero => exact absurd rfl hne
      | succ m => simp [setStateAt]
    | succ n =>
      cases j with
      | zero => simp [setStateAt]
      | succ m =>
        simp only [setStateAt, List.get?_cons_succ]
        exact ih n m (by omega)

theorem setStateAt_get?_eq (s : CellState) :
    ∀ (l : List Cell) (i : Nat), i < l.length →
      (setStateAt l i s).get? i = (l.get? i).map fun c => { c with state := s } := by
  intro l
  induction l with
  | nil => intro i hi; simp at hi
  | cons c cs ih =>
    intro i hi
    cases i with
    | zero => simp [setStateAt]
    | succ n =>
      simp only [setStateAt, List.get?_cons_succ]
      exact ih n (by simp at hi; omega)

theorem setStateAt_oob (s : CellState) :
    ∀ (l : List Cell) (i : Nat), l.length ≤ i → setStateAt l i s = l := by
  intro l
  induction l with
  | nil => intro i _; rfl
  | cons c cs ih =>
    intro i hi
    cases i with
    | zero => simp at hi
    | succ n =>
      simp only [setStateAt, List.cons.injEq, true_and]
      exact ih n (by simp at hi; omega)

/-! Helper lemmas about World.new and paused updates. -/

theorem new_cells_length (width height : Nat) :
    (World.new width height).cells.length = width * height := by
  simp [World.new]

theorem new_cells_get? (width height i : Nat) (hi : i < width * height) :
    (World.new width height).cells.get? i =
      some { index := i, position := Position.from_index i width,
             state := CellState.DEAD } := by
  simp only [World.new, List.get?_eq_getElem?, List.getElem?_map]
  rw [List.getElem?_range hi]
  rfl

theorem new_wellFormed (width height : Nat) : (World.new width height).WellFormed := by
  refine ⟨new_cells_length width height, ?_⟩
  intro i hi
  rw [new_cells_length] at hi
  rw [List.getD_eq_get?, new_cells_get? width height i hi]
  exact ⟨rfl, rfl⟩

theorem update_of_paused {w : World} (hp : w.paused = true) : w.update = some w := by
  simp [World.update, hp]

theorem updateN_of_paused {w : World} (hp : w.paused = true) :
    ∀ n, w.updateN n = some w := by
  intro n
  induction n with
  | zero => rfl
  | succ n ih => simp [World.updateN, update_of_paused hp, ih]

/-- Claim C3 counterexample: construction with zero width does not fail and
does not surface any error; World.new 0 5 returns a grid value with an
empty cell list (the code has no InvalidDimensions error at all). -/
theorem World.new_zero_width_counterexample :
    World.new 0 5 = { width := 0, height := 5, paused := true, cells := [] } := by
  rfl

/-- Claim C3 amended: for every h and every w, new(0, h) and new(w, 0)
succeed and return a grid with zero cells, paused; no InvalidDimensions
error exists and nothing is surfaced to the caller. -/
theorem World.new_zero_dims_no_error (w h : Nat) :
    (World.new 0 h).cells.length = 0 ∧ (World.new 0 h).paused = true ∧
    (World.new w 0).cells.length = 0 ∧ (World.new w 0).paused = true := by
  refine ⟨?_, rfl, ?_, rfl⟩
  · rw [new_cells_length]; exact Nat.zero_mul h
  · rw [new_cells_length]; exact Nat.mul_zero w

/-- Claim C4 counterexample: on a 2 by 2 grid with a buffer of length
15 = 2*2*4 - 1, draw succeeds (there is no BufferSizeMismatch error in
the code) and it does modify the buffer, so the write is not withheld. -/
theorem World.draw_short_buffer_counterexample :
    ((World.new 2 2).draw (List.replicate 15 0)).isSome = true ∧
    (World.new 2 2).draw (List.replicate 15 0) ≠ some (List.replicate 15 0) := by
  exact ⟨rfl, by decide⟩

/-- Claim C6: if paused is true, any number of consecutive update calls
returns the world exactly unchanged: every cell state, width, height and
the paused flag are identical. -/
theorem World.paused_update_noop (w : World) (hp : w.paused = true) (n : Nat) :
    w.updateN n = some w :=
  updateN_of_paused hp n

theorem World.paused_update_noop_witness :
    (World.new 2 2).updateN 5 = some (World.new 2 2) :=
  World.paused_update_noop (World.new 2 2) rfl 5

/-- Claim C7: set_cell_state with an index below width*height overwrites
exactly the state of the cell at that index; with an index at or above
width*height it is a silent no-op that alters no cell and never fails; in
both cases every other cell and the width, height and paused fields are
unchanged. -/
theorem World.set_cell_state_spec (w : World) (i : Nat) (s : CellState) :
    (w.set_cell_state i s).width = w.width ∧
    (w.set_cell_state i s).height = w.height ∧
    (w.set_cell_state i s).paused = w.paused ∧
    (w.set_cell_state i s).cells.length = w.cells.length ∧
    (∀ j, j ≠ i → (w.set_cell_state i s).cells.get? j = w.cells.get? j) ∧
    (i < w.cells.length →
      (w.set_cell_state i s).cells.get? i =
        (w.cells.get? i).map fun c => { c with state := s }) ∧
    (w.cells.length ≤ i → (w.set_cell_state i s).cells = w.cells) := by
  refine ⟨rfl, rfl, rfl, setStateAt_length s w.cells i, ?_, ?_, ?_⟩
  · intro j hj
    exact setStateAt_get?_ne s w.cells i j hj
  · intro hi
    exact setStateAt_get?_eq s w.cells i hi
  · intro hi
    exact setStateAt_oob s w.cells i hi

theorem World.set_cell_state_spec_witness :
    ((World.new 2 2).set_cell_state 1 CellState.ALIVE).cells.get? 1 =
      some { index := 1, position := Position.from_index 1 2,
             state := CellState.ALIVE } ∧
    ((World.new 2 2).set_cell_state 4 CellState.ALIVE).cells =
      (World.new 2 2).cells := by
  constructor
  · rw [(World.set_cell_state_spec (World.new 2 2) 1 CellState.ALIVE).2.2.2.2.2.1
      (by decide)]
    decide
  · exact (World.set_cell_state_spec (World.new 2 2) 4 CellState.ALIVE).2.2.2.2.2.2
      (by decide)

/-- Claim C8: for every width and height at least 1, new yields exactly
width*height cells, all Dead, and the cell stored at offset i carries
index field i. -/
theorem World.new_spec (width height : Nat) (hw : 1 ≤ width) (hh : 1 ≤ height) :
    (World.new width height).cells.length = width * height ∧
    ∀ i, i < width * height →
      ((World.new width height).cells.getD i default).state = CellState.DEAD ∧
      ((World.new width height).cells.getD i default).index = i := by
  refine ⟨new_cells_length width height, ?_⟩
  intro i hi
  rw [List.getD_eq_get?, new_cells_get? width height i hi]
  exact ⟨rfl, rfl⟩

theorem World.new_spec_witness :
    (World.new 2 3).cells.length = 6 ∧
    ((World.new 2 3).cells.getD 5 default).state = CellState.DEAD := by
  exact ⟨(World.new_spec 2 3 (by decide) (by decide)).1,
    ((World.new_spec 2 3 (by decide) (by decide)).2 5 (by decide)).1⟩

/-- Claim C10: a freshly constructed grid has paused equal to true, and
consequently update is a no-op on it, for any number of calls, until the
caller clears the flag. -/
theorem World.new_starts_paused (width height : Nat)
    (hw : 1 ≤ width) (hh : 1 ≤ height) :
    (World.new width height).paused = true ∧
    ∀ n, (World.new width height).updateN n = some (World.new width height) :=
  ⟨rfl, fun n => updateN_of_paused rfl n⟩

theorem World.new_starts_paused_witness :
    (World.new 2 2).paused = true ∧
    (World.new 2 2).updateN 3 = some (World.new 2 2) := by
  exact ⟨(World.new_starts_paused 2 2 (by decide) (by decide)).1,
    (World.new_starts_paused 2 2 (by decide) (by decide)).2 3⟩

/-! Helper lemmas about toroidal stepping and neighbour bounds. -/

theorem Position.to_index_lt {p : Position} {width height : Nat}
    (hx : p.x < width) (hy : p.y < height) : p.to_index width < width * height := by
  unfold Position.to_index
  calc p.y * width + p.x < p.y * width + width := by omega
    _ = (p.y + 1) * width := by ring
    _ ≤ height * width := Nat.mul_le_mul_right width (by omega)
    _ = width * height := Nat.mul_comm _ _

theorem Position.left_x_lt {p : Position} {width : Nat} (hx : p.x < width) :
    (p.left width).x < width := by
  unfold Position.left
  dsimp only
  split <;> omega

theorem Position.right_x_lt {p : Position} {width : Nat} (hx : p.x < width) :
    (p.right width).x < width := by
  unfold Position.right
  dsimp only
  split <;> omega

theorem Position.top_y_lt {p : Position} {height : Nat} (hy : p.y < height) :
    (p.top height).y < height := by
  unfold Position.top
  dsimp only
  split <;> omega

theorem Position.bottom_y_lt {p : Position} {height : Nat} (hy : p.y < height) :
    (p.bottom height).y < height := by
  unfold Position.bottom
  dsimp only
  split <;> omega

theorem Position.neighbours_lt {p : Position} {width height : Nat}
    (hx : p.x < width) (hy : p.y < height) :
    ∀ j ∈ p.neighbours width height, j < width * height := by
  intro j hj
  unfold Position.neighbours at hj
  simp only [List.mem_cons, List.not_mem_nil, or_false] at hj
  rcases hj with h | h | h | h | h | h | h | h <;> subst h
  · exact Position.to_index_lt (Position.left_x_lt hx) (Position.top_y_lt hy)
  · exact Position.to_index_lt hx (Position.top_y_lt hy)
  · exact Position.to_index_lt (Position.right_x_lt hx) (Position.top_y_lt hy)
  · exact Position.to_index_lt (Position.left_x_lt hx) hy
  · exact Position.to_index_lt (Position.right_x_lt hx) hy
  · exact Position.to_index_lt (Position.left_x_lt hx) (Position.bottom_y_lt hy)
  · exact Position.to_index_lt hx (Position.bottom_y_lt hy)
  · exact Position.to_index_lt (Position.right_x_lt hx) (Position.bottom_y_lt hy)

theorem Position.from_index_x_lt {i width height : Nat} (hi : i < width * height) :
    (Position.from_index i width).x < width := by
  have hw : 0 < width := by
    rcases Nat.eq_zero_or_pos width with h | h
    · subst h; simp at hi
    · exact h
  exact Nat.mod_lt i hw

theorem Position.from_index_y_lt {i width height : Nat} (hi : i < width * height) :
    (Position.from_index i width).y < height := by
  have hw : 0 < width := by
    rcases Nat.eq_zero_or_pos width with h | h
    · subst h; simp at hi
    · exact h
  exact (Nat.div_lt_iff_lt_mul hw).2 (by rw [Nat.mul_comm height width]; exact hi)

/-! Helper lemmas about countAlive, mapCells and stepCell. -/

theorem countAlive_eq (cells : List Cell) :
    ∀ l : List Nat, (∀ j ∈ l, j < cells.length) →
      countAlive cells l =
        some (l.countP fun j =>
          decide ((cells.getD j default).state = CellState.ALIVE)) := by
  intro l
  induction l with
  | nil => intro _; rfl
  | cons j rest ih =>
    intro hall
    have hj : j < cells.length := hall j (List.mem_cons_self j rest)
    have hrest := ih fun k hk => hall k (List.mem_cons_of_mem j hk)
    have hgd : cells.getD j default = cells.get ⟨j, hj⟩ := by
      rw [List.getD_eq_get?, List.get?_eq_get hj]
      rfl
    simp only [countAlive, List.get?_eq_get hj, hrest, List.countP_cons, hgd]
    by_cases hs : (cells.get ⟨j, hj⟩).state = CellState.ALIVE
    · simp [hs]
    · simp [hs]

theorem mapCells_some (f : Cell → Option Cell) :
    ∀ l : List Cell, (∀ c ∈ l, (f c).isSome) →
      ∃ l', mapCells f l = some l' ∧ l'.length = l.length ∧
        ∀ i, l'.get? i = (l.get? i).bind f := by
  intro l
  induction l with
  | nil =>
    intro _
    exact ⟨[], rfl, rfl, fun i => by cases i <;> rfl⟩
  | cons c cs ih =>
    intro hall
    obtain ⟨c', hc'⟩ :=
      Option.isSome_iff_exists.1 (hall c (List.mem_cons_self c cs))
    obtain ⟨cs', h1, h2, h3⟩ := ih fun d hd => hall d (List.mem_cons_of_mem c hd)
    refine ⟨c' :: cs', ?_, by simp [h2], ?_⟩
    · simp [mapCells, hc', h1]
    · intro i
      cases i with
      | zero => simp [hc']
      | succ n => simpa using h3 n

theorem stepCell_eq (w : World) (hwf : w.WellFormed) {i : Nat} {c : Cell}
    (hc : w.cells.get? i = some c) :
    stepCell w c = some { index := c.index, position := c.position,
                          state := w.nextState i } := by
  have hi : i < w.cells.length := by
    by_contra h
    push_neg at h
    rw [List.get?_eq_none.2 h] at hc
    exact Option.noConfusion hc
  have hgd : w.cells.getD i default = c := by
    rw [List.getD_eq_get?, hc]
    rfl
  have hidx : c.index = i := by
    have h := (hwf.2 i hi).1
    rw [hgd] at h
    exact h
  have hpos : c.position = Position.from_index i w.width := by
    have h := (hwf.2 i hi).2
    rw [hgd] at h
    exact h
  have hni : w.neighbours_indexes c.index =
      some ((Position.from_index i w.width).neighbours w.width w.height) := by
    rw [World.neighbours_indexes, hidx, hc, Option.map_some', hpos]
  have hiWH : i < w.width * w.height := hwf.1 ▸ hi
  have hbounds : ∀ j ∈ (Position.from_index i w.width).neighbours w.width w.height,
      j < w.cells.length := by
    intro j hj
    rw [hwf.1]
    exact Position.neighbours_lt (Position.from_index_x_lt hiWH)
      (Position.from_index_y_lt hiWH) j hj
  have hca := countAlive_eq w.cells _ hbounds
  cases hstate : c.state with
  | IMMUTABLE =>
    simp only [stepCell, hstate, World.nextState, hgd]
    cases c
    simp only [Cell.mk.injEq] at *
    subst hidx
    simp [hstate]
  | ALIVE =>
    simp only [stepCell, hstate, hni, hca, World.nextState, hgd, hstate,
      World.aliveNeighbours]
  | DEAD =>
    simp only [stepCell, hstate, hni, hca, World.nextState, hgd, hstate,
      World.aliveNeighbours]

/-- Master characterization of one update call on a well-formed world:
it succeeds, preserves dimensions, the paused flag, the cell count and
well-formedness, and every cell makes the specified transition (identity
when paused, the rule otherwise), computed from the pre-call snapshot. -/
theorem update_master (w : World) (hwf : w.WellFormed) :
    ∃ w', w.update = some w' ∧ w'.width = w.width ∧ w'.height = w.height ∧
      w'.paused = w.paused ∧ w'.cells.length = w.cells.length ∧ w'.WellFormed ∧
      ∀ i, i < w.cells.length →
        (w'.cells.getD i default).state =
          if w.paused = true then (w.cells.getD i default).state
          else w.nextState i := by
  by_cases hp : w.paused = true
  · exact ⟨w, update_of_paused hp, rfl, rfl, rfl, rfl, hwf,
      fun i _ => by rw [if_pos hp]⟩
  · have hp' : w.paused = false := by
      cases hb : w.paused
      · rfl
      · exact absurd hb hp
    have hstep : ∀ c ∈ w.cells, (stepCell w c).isSome := by
      intro c hcmem
      obtain ⟨n, hn⟩ := List.mem_iff_get?.1 hcmem
      rw [stepCell_eq w hwf hn]
      rfl
    obtain ⟨l', h1, h2, h3⟩ := mapCells_some (stepCell w) w.cells hstep
    have hcell : ∀ i, i < w.cells.length →
        l'.getD i default =
          Cell.mk i (Position.from_index i w.width) (w.nextState i) := by
      intro i hi
      have hgi := List.get?_eq_get hi
      have := h3 i
      rw [hgi, Option.some_bind, stepCell_eq w hwf hgi] at this
      have hidx := (hwf.2 i hi).1
      have hpos := (hwf.2 i hi).2
      have hgd : w.cells.getD i default = w.cells.get ⟨i, hi⟩ := by
        rw [List.getD_eq_get?, hgi]
        rfl
      rw [hgd] at hidx hpos
      rw [List.getD_eq_get?, this, hidx, hpos]
      rfl
    refine ⟨{ w with cells := l' }, ?_, rfl, rfl, rfl, h2, ⟨?_, ?_⟩, ?_⟩
    · simp [World.update, hp', h1]
    · show l'.length = w.width * w.height
      rw [h2, hwf.1]
    · show ∀ i, i < l'.length → _
      intro i hi
      rw [h2] at hi
      rw [hcell i hi]
      exact ⟨rfl, rfl⟩
    · intro i hi
      rw [if_neg hp]
      show (l'.getD i default).state = _
      rw [hcell i hi]

/-- Claim C1: on a well-formed unpaused grid, one update call sets the
next state of every Alive or Dead cell as a function of the number of its
eight Moore neighbours whose pre-call state is Alive: exactly 2 leaves
the state unchanged, exactly 3 makes it Alive, any other count makes it
Dead; the neighbour counts are read from the pre-call cell array w.cells,
never from the new one. -/
theorem World.update_conway_rule (w : World) (hwf : w.WellFormed)
    (hp : w.paused = false) (i : Nat) (hi : i < w.cells.length)
    (hs : (w.cells.getD i default).state ≠ CellState.IMMUTABLE) :
    ∃ w', w.update = some w' ∧ w'.cells.length = w.cells.length ∧
      (w'.cells.getD i default).state =
        (if w.aliveNeighbours i = 2 then (w.cells.getD i default).state
         else if w.aliveNeighbours i = 3 then CellState.ALIVE
         else CellState.DEAD) := by
  obtain ⟨w', h1, _, _, _, hlen, _, hcell⟩ := update_master w hwf
  refine ⟨w', h1, hlen, ?_⟩
  rw [hcell i hi, if_neg (by rw [hp]; exact Bool.false_ne_true)]
  unfold World.nextState
  cases h : (w.cells.getD i default).state with
  | IMMUTABLE => exact absurd h hs
  | ALIVE => rfl
  | DEAD => rfl

theorem World.update_conway_rule_witness :
    ∃ w', World.update
        { width := 3, height := 3, paused := false,
          cells := setStateAt (setStateAt (setStateAt (World.new 3 3).cells
            1 CellState.ALIVE) 3 CellState.ALIVE) 4 CellState.ALIVE } = some w' ∧
      w'.cells.length =
        (World.mk 3 3 false (setStateAt (setStateAt (setStateAt
          (World.new 3 3).cells 1 CellState.ALIVE) 3 CellState.ALIVE)
          4 CellState.ALIVE)).cells.length ∧
      (w'.cells.getD 0 default).state =
        (if (World.mk 3 3 false (setStateAt (setStateAt (setStateAt
              (World.new 3 3).cells 1 CellState.ALIVE) 3 CellState.ALIVE)
              4 CellState.ALIVE)).aliveNeighbours 0 = 2 then
          ((World.mk 3 3 false (setStateAt (setStateAt (setStateAt
            (World.new 3 3).cells 1 CellState.ALIVE) 3 CellState.ALIVE)
            4 CellState.ALIVE)).cells.getD 0 default).state
         else if (World.mk 3 3 false (setStateAt (setStateAt (setStateAt
              (World.new 3 3).cells 1 CellState.ALIVE) 3 CellState.ALIVE)
              4 CellState.ALIVE)).aliveNeighbours 0 = 3 then CellState.ALIVE
         else CellState.DEAD) :=
  World.update_conway_rule _ (by decide) rfl 0 (by decide) (by decide)

/-- Helper: over any number of update calls on a well-formed world, a
cell whose state is Immutable keeps that state, and well-formedness is
preserved. -/
theorem updateN_immutable_helper :
    ∀ (n : Nat) (w : World), w.WellFormed →
      ∀ i, (w.cells.getD i default).state = CellState.IMMUTABLE →
      ∃ w', w.updateN n = some w' ∧ w'.WellFormed ∧
        (w'.cells.getD i default).state = CellState.IMMUTABLE := by
  intro n
  induction n with
  | zero => intro w hwf i hs; exact ⟨w, rfl, hwf, hs⟩
  | succ n ih =>
    intro w hwf i hs
    have hi : i < w.cells.length := by
      by_contra h
      push_neg at h
      rw [List.getD_eq_get?, List.get?_eq_none.2 h] at hs
      exact absurd hs (by decide)
    obtain ⟨w₁, h1, _, _, _, hlen, hwf₁, hcell⟩ := update_master w hwf
    have hs₁ : (w₁.cells.getD i default).state = CellState.IMMUTABLE := by
      rw [hcell i hi]
      split
      · exact hs
      · unfold World.nextState
        rw [hs]
    obtain ⟨w', h2, hwf', hs'⟩ := ih w₁ hwf₁ i hs₁
    exact ⟨w', by simp [World.updateN, h1, h2], hwf', hs'⟩

/-- Claim C5: a cell whose state is Immutable keeps state Immutable after
any number of update calls, regardless of the states of its neighbours
(the statement quantifies over every well-formed grid, hence over every
neighbourhood configuration); updates never touch it. -/
theorem World.immutable_absorbing (w : World) (hwf : w.WellFormed) (i : Nat)
    (hs : (w.cells.getD i default).state = CellState.IMMUTABLE) (n : Nat) :
    ∃ w', w.updateN n = some w' ∧
      (w'.cells.getD i default).state = CellState.IMMUTABLE := by
  obtain ⟨w', h1, _, h3⟩ := updateN_immutable_helper n w hwf i hs
  exact ⟨w', h1, h3⟩

theorem World.immutable_absorbing_witness :
    ∃ w', World.updateN
        { width := 3, height := 3, paused := false,
          cells := setStateAt (setStateAt (setStateAt (World.new 3 3).cells
            4 CellState.IMMUTABLE) 1 CellState.ALIVE) 7 CellState.ALIVE } 2 =
        some w' ∧
      (w'.cells.getD 4 default).state = CellState.IMMUTABLE :=
  World.immutable_absorbing _ (by decide) 4 (by decide) 2

/-- Claim C2: for a grid of width W at least 1 and height H at least 1,
stepping left from column 0 lands on column W-1 and stepping right from
column W-1 lands on column 0 (as linear indices), and analogously for
rows with top and bottom; consequently every index produced by the
neighbour resolver of a well-formed world lies below W*H. -/
theorem Position.toroidal_wrap (W H x y : Nat) (hW : 1 ≤ W) (hH : 1 ≤ H)
    (hy : y < H) (hx : x < W) :
    ((Position.mk 0 y).left W).to_index W = (Position.mk (W - 1) y).to_index W ∧
    ((Position.mk (W - 1) y).right W).to_index W = (Position.mk 0 y).to_index W ∧
    ((Position.mk x 0).top H).to_index W = (Position.mk x (H - 1)).to_index W ∧
    ((Position.mk x (H - 1)).bottom H).to_index W = (Position.mk x 0).to_index W ∧
    (∀ j ∈ (Position.mk x y).neighbours W H, j < W * H) ∧
    ∀ (w : World), w.WellFormed → w.width = W → w.height = H →
      ∀ i l, w.neighbours_indexes i = some l → ∀ j ∈ l, j < W * H := by
  refine ⟨?_, ?_, ?_, ?_, Position.neighbours_lt hx hy, ?_⟩
  · simp [Position.left, Position.to_index]
  · have hsum : W - 1 + 1 = W := by omega
    simp [Position.right, Position.to_index, hsum]
  · simp [Position.top, Position.to_index]
  · have hsum : H - 1 + 1 = H := by omega
    simp [Position.bottom, Position.to_index, hsum]
  · intro w hwf hWw hHw i l hl j hj
    obtain ⟨c, hc, hcl⟩ := Option.map_eq_some'.1 hl
    have hi : i < w.cells.length := by
      by_contra h
      push_neg at h
      rw [List.get?_eq_none.2 h] at hc
      exact Option.noConfusion hc
    have hgd : w.cells.getD i default = c := by
      rw [List.getD_eq_get?, hc]
      rfl
    have hpos : c.position = Position.from_index i w.width := by
      have h := (hwf.2 i hi).2
      rw [hgd] at h
      exact h
    have hiWH : i < w.width * w.height := hwf.1 ▸ hi
    subst hcl
    rw [hpos] at hj
    have := Position.neighbours_lt (Position.from_index_x_lt hiWH)
      (Position.from_index_y_lt hiWH) j hj
    rw [hWw, hHw] at this
    exact this

theorem Position.toroidal_wrap_witness :
    ((Position.mk 0 1).left 3).to_index 3 = (Position.mk 2 1).to_index 3 ∧
    ((Position.mk 2 1).right 3).to_index 3 = (Position.mk 0 1).to_index 3 ∧
    ((Position.mk 1 0).top 3).to_index 3 = (Position.mk 1 2).to_index 3 ∧
    ((Position.mk 1 2).bottom 3).to_index 3 = (Position.mk 1 0).to_index 3 ∧
    (8 : Nat) < 3 * 3 := by
  obtain ⟨h1, h2, h3, h4, _, h6⟩ :=
    Position.toroidal_wrap 3 3 1 1 (by decide) (by decide) (by decide) (by decide)
  refine ⟨h1, h2, h3, h4, ?_⟩
  exact h6 (World.new 3 3) (by decide) rfl rfl 4
    ((Position.from_index 4 3).neighbours 3 3) (by decide) 8 (by decide)

/-! Helper lemmas about drawing. -/

theorem colorOf_length (s : CellState) : (colorOf s).length = 4 := by
  cases s <;> rfl

theorem renderCells_length : ∀ l : List Cell, (renderCells l).length = 4 * l.length := by
  intro l
  induction l with
  | nil => rfl
  | cons c cs ih =>
    show (colorOf c.state ++ renderCells cs).length = 4 * (c :: cs).length
    rw [List.length_append, ih, colorOf_length, List.length_cons]
    ring

theorem drawLoop_spec (cells : List Cell) :
    ∀ (k i : Nat) (frame : List Nat), frame.length / 4 = k →
      i + k ≤ cells.length →
      drawLoop cells i frame =
        some (renderCells ((cells.drop i).take k) ++ frame.drop (4 * k)) := by
  intro k
  induction k with
  | zero =>
    intro i frame hk _
    have hlen : frame.length < 4 := (Nat.div_eq_zero_iff (by norm_num)).1 hk
    rcases frame with _ | ⟨a, _ | ⟨b, _ | ⟨c, _ | ⟨d, rest⟩⟩⟩⟩
    · rfl
    · rfl
    · rfl
    · rfl
    · exfalso
      simp only [List.length_cons] at hlen
      omega
  | succ k ih =>
    intro i frame hk hle
    have h4 : 4 ≤ frame.length := by
      by_contra h
      push_neg at h
      rw [Nat.div_eq_of_lt h] at hk
      exact Nat.succ_ne_zero k hk.symm
    rcases frame with _ | ⟨a, _ | ⟨b, _ | ⟨c, _ | ⟨d, rest⟩⟩⟩⟩
    · simp at h4
    · simp at h4
    · simp at h4
    · simp at h4
    · have hi : i < cells.length := by omega
      have hrest : rest.length / 4 = k := by
        have hlen4 : (a :: b :: c :: d :: rest : List Nat).length
            = rest.length + 4 := by
          simp only [List.length_cons]
        rw [hlen4, Nat.add_div_right _ (by norm_num)] at hk
        omega
      have hc := List.get?_eq_get hi
      have hrec := ih (i + 1) rest hrest (by omega)
      rw [show drawLoop cells i (a :: b :: c :: d :: rest) =
          (match cells.get? i with
           | none => none
           | some cell =>
             match drawLoop cells (i + 1) rest with
             | none => none
             | some rest' => some (colorOf cell.state ++ rest')) from rfl,
        hc, hrec]
      have hdropc : cells.drop i = cells.get ⟨i, hi⟩ :: cells.drop (i + 1) :=
        List.drop_eq_get_cons hi
      have hdrop4 : (a :: b :: c :: d :: rest : List Nat).drop (4 * (k + 1))
          = rest.drop (4 * k) := by
        have he : 4 * (k + 1) = 4 * k + 1 + 1 + 1 + 1 := by ring
        rw [he]
        rfl
      rw [hdropc, List.take_succ_cons, hdrop4]
      show some (colorOf _ ++ (renderCells _ ++ _)) = _
      rw [show renderCells (cells.get ⟨i, hi⟩ :: (cells.drop (i + 1)).take k)
          = colorOf (cells.get ⟨i, hi⟩).state
            ++ renderCells ((cells.drop (i + 1)).take k) from rfl,
        List.append_assoc]

theorem renderCells_segment : ∀ (l : List Cell) (rest : List Nat) (i : Nat),
    i < l.length →
    ((renderCells l ++ rest).drop (4 * i)).take 4 =
      colorOf ((l.getD i default).state) := by
  intro l
  induction l with
  | nil => intro rest i hi; simp at hi
  | cons c cs ih =>
    intro rest i hi
    cases i with
    | zero =>
      show (((colorOf c.state ++ renderCells cs) ++ rest).drop 0).take 4
          = colorOf c.state
      rw [List.drop_zero, List.append_assoc]
      cases c.state <;> rfl
    | succ n =>
      have hn : n < cs.length := by
        simp only [List.length_cons] at hi
        omega
      have he : 4 * (n + 1) = 4 * n + 1 + 1 + 1 + 1 := by ring
      show (((colorOf c.state ++ renderCells cs) ++ rest).drop (4 * (n + 1))).take 4
          = colorOf ((cs.getD n default).state)
      rw [List.append_assoc, he]
      cases c.state <;>
        simpa only [colorOf, List.cons_append, List.drop_succ_cons,
          List.nil_append] using ih rest n hn

/-- Claim C9: on a well-formed grid with a frame buffer of length exactly
width*height*4, draw succeeds and writes, for each cell index i, the
4-byte RGBA colour of that cell at byte offset 4*i, where the colour
is determined solely by the state (Immutable FF 00 4D FF, Alive
1E 1E 1E FF, Dead F8 F8 F8 F8), and the output has exactly the declared
buffer length, so no byte outside it is touched. -/
theorem World.draw_exact_buffer_spec (w : World) (hwf : w.WellFormed)
    (frame : List Nat) (hlen : frame.length = w.width * w.height * 4) :
    ∃ out, w.draw frame = some out ∧ out.length = frame.length ∧
      (∀ i, i < w.width * w.height →
        (out.drop (4 * i)).take 4 = colorOf ((w.cells.getD i default).state)) ∧
      colorOf CellState.IMMUTABLE = [0xFF, 0x00, 0x4D, 0xFF] ∧
      colorOf CellState.ALIVE = [0x1E, 0x1E, 0x1E, 0xFF] ∧
      colorOf CellState.DEAD = [0xF8, 0xF8, 0xF8, 0xF8] := by
  have hN : frame.length / 4 = w.width * w.height := by
    rw [hlen]
    exact Nat.mul_div_cancel _ (by norm_num)
  have hle : 0 + w.width * w.height ≤ w.cells.length := by
    rw [hwf.1]
    omega
  have hdl := drawLoop_spec w.cells (w.width * w.height) 0 frame hN hle
  rw [List.drop_zero] at hdl
  have htake : w.cells.take (w.width * w.height) = w.cells := by
    rw [← hwf.1]
    exact List.take_length w.cells
  rw [htake] at hdl
  refine ⟨renderCells w.cells ++ frame.drop (4 * (w.width * w.height)),
    hdl, ?_, ?_, rfl, rfl, rfl⟩
  · rw [List.length_append, renderCells_length, hwf.1, List.length_drop, hlen]
    generalize w.width * w.height = N
    omega
  · intro i hi
    exact renderCells_segment w.cells (frame.drop (4 * (w.width * w.height))) i
      (by rw [hwf.1]; exact hi)

theorem World.draw_exact_buffer_spec_witness :
    ∃ out, (World.new 1 2).draw [0, 0, 0, 0, 0, 0, 0, 0] = some out ∧
      out.length = 8 ∧
      (out.drop 4).take 4 = colorOf (((World.new 1 2).cells.getD 1 default).state) := by
  obtain ⟨out, h1, h2, h3, _⟩ := World.draw_exact_buffer_spec (World.new 1 2)
    (by decide) [0, 0, 0, 0, 0, 0, 0, 0] (by decide)
  exact ⟨out, h1, h2, h3 1 (by decide)⟩

/-- Claim C4 amended: on a well-formed nonempty grid, draw with a frame
buffer of length width*height*4 - 1 does not fail and does not validate
the length: it succeeds, overwrites the first width*height - 1 complete
4-byte pixels from the cell states, and leaves the trailing 3 bytes
unchanged (a partial write; no BufferSizeMismatch error exists). -/
theorem World.draw_short_buffer_incomplete_write (w : World) (hwf : w.WellFormed)
    (hpos : 1 ≤ w.width * w.height) (frame : List Nat)
    (hlen : frame.length = w.width * w.height * 4 - 1) :
    ∃ out, w.draw frame = some out ∧ out.length = frame.length ∧
      out.drop (4 * (w.width * w.height - 1)) =
        frame.drop (4 * (w.width * w.height - 1)) ∧
      ∀ i, i < w.width * w.height - 1 →
        (out.drop (4 * i)).take 4 = colorOf ((w.cells.getD i default).state) := by
  have hN : frame.length / 4 = w.width * w.height - 1 := by
    rw [hlen]
    have h2 : w.width * w.height * 4 - 1 = 3 + 4 * (w.width * w.height - 1) := by
      generalize w.width * w.height = N at hpos ⊢
      omega
    rw [h2, Nat.add_mul_div_left _ _ (by norm_num),
      Nat.div_eq_of_lt (by norm_num)]
    omega
  have hle : 0 + (w.width * w.height - 1) ≤ w.cells.length := by
    rw [hwf.1]
    omega
  have hdl := drawLoop_spec w.cells (w.width * w.height - 1) 0 frame hN hle
  rw [List.drop_zero] at hdl
  have hAlen : (renderCells (w.cells.take (w.width * w.height - 1))).length
      = 4 * (w.width * w.height - 1) := by
    rw [renderCells_length, List.length_take, hwf.1,
      Nat.min_eq_left (by omega)]
  refine ⟨_, hdl, ?_, ?_, ?_⟩
  · rw [List.length_append, hAlen, List.length_drop, hlen]
    generalize w.width * w.height = N at hpos ⊢
    omega
  · rw [List.drop_left' hAlen]
  · intro i hi
    have hi' : i < (w.cells.take (w.width * w.height - 1)).length := by
      rw [List.length_take, hwf.1, Nat.min_eq_left (by omega)]
      exact hi
    have hseg := renderCells_segment (w.cells.take (w.width * w.height - 1))
      (frame.drop (4 * (w.width * w.height - 1))) i hi'
    have hgd : (w.cells.take (w.width * w.height - 1)).getD i default
        = w.cells.getD i default := by
      rw [List.getD_eq_get?, List.getD_eq_get?, List.get?_take hi]
    rw [hgd] at hseg
    exact hseg

theorem World.draw_short_buffer_incomplete_write_witness :
    ∃ out, (World.new 2 2).draw
        [9, 9, 9, 9, 9, 9, 9, 9, 9, 9, 9, 9, 9, 9, 9] = some out ∧
      out.length = 15 ∧
      out.drop 12 = [9, 9, 9] ∧
      (out.drop 4).take 4 = colorOf (((World.new 2 2).cells.getD 1 default).state) := by
  obtain ⟨out, h1, h2, h3, h4⟩ := World.draw_short_buffer_incomplete_write
    (World.new 2 2) (by decide) (by decide)
    [9, 9, 9, 9, 9, 9, 9, 9, 9, 9, 9, 9, 9, 9, 9] (by decide)
  exact ⟨out, h1, h2, h3, h4 1 (by decide)⟩
